import Mathlib

/-!
Verification development for the komodo database snapshot engine:
`lib/database/src/utils/backup.rs`, `restore.rs` and `copy.rs`.

Documents are kept abstract (a type parameter `Doc`): the engine treats
them opaquely.  File paths are modelled as their component lists
(`List String`), matching `std::path::Path` component order.  The
asynchronous fan-out is modelled per collection: each worker is a pure
function of its own inputs, which is exactly the isolation the code
provides (each spawned task owns its cursor / file / target handle).
-/

namespace Komodo

/-- Batch threshold used by both restore.rs (line 76) and copy.rs (line 38):
`buffer.len() >= 20_000`. -/
def BATCH_SIZE : Nat := 20000

/-- Loop state of a buffered-insert worker: the in-memory `buffer`, the
`count` of documents accepted so far, and the list of bulk-insert calls
already issued (each entry is the batch passed to one `insert_many`). -/
structure BatchState (Doc : Type) where
  buffer : List Doc
  count : Nat
  inserts : List (List Doc)

/-- Completed trace of one per-collection worker: all `insert_many` batches
issued, in order, and the final document count. -/
structure WorkerTrace (Doc : Type) where
  inserts : List (List Doc)
  count : Nat

/-- One iteration of the cursor loop in copy.rs (lines 31-50): count the
document, push it on the buffer, and when the buffer reaches `BATCH_SIZE`
issue one unordered bulk-insert and clear the buffer.  A failed mid-stream
insert is only logged (copy.rs line 46), so it does not alter the state. -/
def copyDoc {Doc : Type} (st : BatchState Doc) (doc : Doc) : BatchState Doc :=
  let buffer := st.buffer ++ [doc]
  if BATCH_SIZE ≤ buffer.length then
    ⟨[], st.count + 1, st.inserts ++ [buffer]⟩
  else
    ⟨buffer, st.count + 1, st.inserts⟩

/-- One iteration of the line loop in restore.rs (lines 58-88): skip empty
lines, skip (log only) lines that fail to parse, and otherwise proceed as
in `copyDoc`: count, buffer, flush at `BATCH_SIZE`. -/
def restoreLine {Doc : Type} (deser : String → Option Doc)
    (st : BatchState Doc) (line : String) : BatchState Doc :=
  if line = "" then st
  else
    match deser line with
    | none => st
    | some doc =>
      let buffer := st.buffer ++ [doc]
      if BATCH_SIZE ≤ buffer.length then
        ⟨[], st.count + 1, st.inserts ++ [buffer]⟩
      else
        ⟨buffer, st.count + 1, st.inserts⟩

/-- End-of-input flush shared by restore.rs (lines 89-97) and copy.rs
(lines 51-59): one final bulk-insert of the remaining buffer, only when it
is non-empty. -/
def finishWorker {Doc : Type} (st : BatchState Doc) : WorkerTrace Doc :=
  if st.buffer.isEmpty then ⟨st.inserts, st.count⟩
  else ⟨st.inserts ++ [st.buffer], st.count⟩

/-- Per-collection import worker of restore.rs (lines 44-98), as a function
of the decompressed lines of that collection's file and of the JSON
line-parser `deser` (`serde_json::from_str`, `none` models a parse error). -/
def restoreWorker {Doc : Type} (deser : String → Option Doc)
    (lines : List String) : WorkerTrace Doc :=
  finishWorker (lines.foldl (restoreLine deser) ⟨[], 0, []⟩)

/-- Per-collection copy worker of copy.rs (lines 23-61), as a function of
the documents delivered by the source cursor. -/
def copyWorker {Doc : Type} (docs : List Doc) : WorkerTrace Doc :=
  finishWorker (docs.foldl copyDoc ⟨[], 0, []⟩)

/-- Documents obtained from a list of file lines by the filter in
restore.rs lines 62-73: empty lines are skipped, lines that fail to parse
are skipped, every other line yields its parsed document. -/
def parsedDocs {Doc : Type} (deser : String → Option Doc)
    (lines : List String) : List Doc :=
  lines.filterMap (fun l => if l = "" then none else deser l)

/-- Fan-out of restore.rs (lines 34-114): one worker per `(collection,
file)` pair, each consuming only its own file's lines. -/
def restoreAll {Doc : Type} (deser : String → Option Doc)
    (files : List (String × List String)) : List (String × WorkerTrace Doc) :=
  files.map (fun f => (f.1, restoreWorker deser f.2))

/-! Database operations.  The only call either worker makes against the
target database is `insert_many` (restore.rs lines 77-96, copy.rs lines
39-58); `DbOp` also has delete/update constructors so that "only inserts"
is an actual statement about the emitted trace. -/

/-- Operations a client can issue against a collection. -/
inductive DbOp (Doc : Type) where
  | insertMany : List Doc → DbOp Doc
  | deleteMany : (Doc → Bool) → DbOp Doc
  | updateMany : (Doc → Bool) → (Doc → Doc) → DbOp Doc

/-- Database operations issued by a worker: exactly its bulk-insert calls. -/
def WorkerTrace.ops {Doc : Type} (t : WorkerTrace Doc) : List (DbOp Doc) :=
  t.inserts.map DbOp.insertMany

/-- Effect of one successful operation on a collection's multiset of
documents. -/
def applyOp {Doc : Type} (s : Multiset Doc) : DbOp Doc → Multiset Doc
  | .insertMany ds => s + ↑ds
  | .deleteMany p => s.filter (fun d => ¬ p d = true)
  | .updateMany p f => s.map (fun d => if p d = true then f d else d)

/-- Apply a list of operations to a collection, with `ok i` telling whether
the `i`-th operation (counting from `i0`) succeeded; a failed operation
leaves the collection unchanged (the engine never retries it). -/
def applyOpsFrom {Doc : Type} (ok : Nat → Bool) :
    Nat → Multiset Doc → List (DbOp Doc) → Multiset Doc
  | _, s, [] => s
  | i, s, op :: rest =>
    applyOpsFrom ok (i + 1) (if ok i then applyOp s op else s) rest

/-! Export side (backup.rs). -/

/-- One iteration of the cursor loop in backup.rs (lines 61-83), over state
`(lines written, count, send index)`: the count is incremented before
serialization, a document whose serialization fails is skipped (logged,
line 72), and a line whose write fails is skipped (logged, line 81). -/
def backupStep {Doc : Type} (serialize : Doc → Option String)
    (writeOk : Nat → Bool) (st : List String × Nat × Nat) (doc : Doc) :
    List String × Nat × Nat :=
  match serialize doc with
  | none => (st.1, st.2.1 + 1, st.2.2)
  | some s =>
    if writeOk st.2.2 then (st.1 ++ [s], st.2.1 + 1, st.2.2 + 1)
    else (st.1, st.2.1 + 1, st.2.2 + 1)

/-- Lines actually written to one collection's file and the count reported
for it, as produced by the loop of backup.rs lines 61-83. -/
def backupScan {Doc : Type} (serialize : Doc → Option String)
    (writeOk : Nat → Bool) (docs : List Doc) : List String × Nat :=
  ((docs.foldl (backupStep serialize writeOk) ([], 0, 0)).1,
   (docs.foldl (backupStep serialize writeOk) ([], 0, 0)).2.1)

/-- Failure modes that abort one export worker (backup.rs lines 46-60):
creating the collection's file, or opening the source cursor.  Flush and
shutdown failures are only logged (lines 85-99) and leave the result `Ok`. -/
inductive BackupWorkerErr where
  | createFile
  | query
deriving DecidableEq

/-- One export worker (backup.rs lines 42-114): fails only on file
creation or source query; per-document failures are contained inside
`backupScan`. -/
def backupWorker {Doc : Type} (createFileOk queryOk : Bool)
    (serialize : Doc → Option String) (writeOk : Nat → Bool)
    (docs : List Doc) : Except BackupWorkerErr (List String × Nat) :=
  if createFileOk = false then .error .createFile
  else if queryOk = false then .error .query
  else .ok (backupScan serialize writeOk docs)

/-- Failure modes that abort the whole export (backup.rs lines 24-33):
creating the dated folder, or listing the source's collections. -/
inductive BackupSetupErr where
  | createDir
  | listCollections
deriving DecidableEq

/-- Overall shape of `backup` (backup.rs lines 17-131): after the dated
folder is created and the collection names are listed, one worker runs per
collection and its outcome is only logged (lines 104-126); the call then
returns `Ok`.  The returned list models the per-collection logged
outcomes. -/
def backup (createDirOk listOk : Bool) (collections : List String)
    (worker : String → Except BackupWorkerErr (List String × Nat)) :
    Except BackupSetupErr (List (String × Except BackupWorkerErr (List String × Nat))) :=
  if createDirOk = false then .error .createDir
  else if listOk = false then .error .listCollections
  else .ok (collections.map (fun c => (c, worker c)))

/-- Destination path chosen for a collection's file (backup.rs lines
37-41): the literal collection name `Stats` goes to `Stats.gz` directly
under the backups-folder root, every other collection goes to
`<timestamp>/<collection>.gz` inside the dated subfolder. -/
def backupFilePath (backupFolder : List String) (timestamp : String)
    (collection : String) : List String :=
  if collection = "Stats" then backupFolder ++ ["Stats.gz"]
  else backupFolder ++ [timestamp, collection ++ ".gz"]

/-- Overwriting file write: backup.rs lines 45-49 first remove any existing
file at the path and then create it fresh, so the previous content at that
path is fully replaced. -/
def writeFile (fs : List String → Option (List String))
    (p : List String) (content : List String) :
    List String → Option (List String) :=
  fun q => if q = p then some content else fs q

/-! Restore-folder selection (restore.rs lines 131-158). -/

/-- Lexicographic comparison of character lists. -/
def charsLt : List Char → List Char → Bool
  | _, [] => false
  | [], _ :: _ => true
  | a :: as, b :: bs =>
    if a < b then true
    else if b < a then false
    else charsLt as bs

/-- Boolean string comparison used for path components; Rust compares
`OsStr` components byte-wise, which on the names at hand coincides with
lexicographic comparison of the characters. -/
def strLt (a b : String) : Bool := charsLt a.data b.data

/-- Lexicographic comparison of paths by components, mirroring the `Ord`
instance of `std::path::Path` used by `path > max` in restore.rs line 146. -/
def pathLt : List String → List String → Bool
  | _, [] => false
  | [], _ :: _ => true
  | a :: as, b :: bs =>
    if strLt a b then true
    else if strLt b a then false
    else pathLt as bs

/-- One entry returned by `read_dir`: its file name and whether it is a
directory. -/
structure DirEntry where
  name : String
  isDir : Bool

/-- Loop body of restore.rs lines 144-149: an entry replaces the running
maximum exactly when it is a directory and its path compares greater. -/
def latestStep (backupFolder : List String) (mx : List String)
    (e : DirEntry) : List String :=
  if e.isDir && pathLt mx (backupFolder ++ [e.name]) then
    backupFolder ++ [e.name]
  else mx

/-- Fold of restore.rs lines 138-156: starting from the empty path, keep
the maximal directory path among the entries of the backups folder. -/
def latestFold (backupFolder : List String) (entries : List DirEntry) :
    List String :=
  entries.foldl (latestStep backupFolder) []

/-- Failure mode of `latest_restore_folder`: the only error path is
`read_dir` on the backups folder itself (restore.rs lines 135-137). -/
inductive RestoreSetupErr where
  | readDir
deriving DecidableEq

/-- Model of `latest_restore_folder` (restore.rs lines 131-158): reads the
backups folder and returns the maximal directory path found, starting from
the empty path; when no subdirectory exists it therefore returns `Ok` of
the empty path. -/
def latest_restore_folder (readDirOk : Bool) (backupFolder : List String)
    (entries : List DirEntry) : Except RestoreSetupErr (List String) :=
  if readDirOk = false then .error .readDir
  else .ok (latestFold backupFolder entries)

/-! Worker fold lemmas. -/

/-- The copy loop keeps the concatenation of the issued batches and the
current buffer equal to the documents consumed so far, and counts every
consumed document. -/
lemma copy_foldl_spec {Doc : Type} (docs : List Doc) :
    ∀ st : BatchState Doc,
      (docs.foldl copyDoc st).inserts.flatten ++ (docs.foldl copyDoc st).buffer
        = st.inserts.flatten ++ st.buffer ++ docs
      ∧ (docs.foldl copyDoc st).count = st.count + docs.length := by
  induction docs with
  | nil => intro st; simp
  | cons d ds ih =>
    intro st
    rw [List.foldl_cons]
    by_cases hb : BATCH_SIZE ≤ (st.buffer ++ [d]).length
    · have e : copyDoc st d = ⟨[], st.count + 1, st.inserts ++ [st.buffer ++ [d]]⟩ := by
        simp only [copyDoc]; rw [if_pos hb]
      rw [e]
      obtain ⟨h1, h2⟩ := ih ⟨[], st.count + 1, st.inserts ++ [st.buffer ++ [d]]⟩
      constructor
      · rw [h1]; simp
      · rw [h2]; simp; omega
    · have e : copyDoc st d = ⟨st.buffer ++ [d], st.count + 1, st.inserts⟩ := by
        simp only [copyDoc]; rw [if_neg hb]
      rw [e]
      obtain ⟨h1, h2⟩ := ih ⟨st.buffer ++ [d], st.count + 1, st.inserts⟩
      constructor
      · rw [h1]; simp
      · rw [h2]; simp; omega

/-- The copy worker bulk-inserts exactly the documents delivered by the
cursor, in order, and reports their number. -/
lemma copyWorker_spec {Doc : Type} (docs : List Doc) :
    (copyWorker docs).inserts.flatten = docs
    ∧ (copyWorker docs).count = docs.length := by
  obtain ⟨h1, h2⟩ := copy_foldl_spec docs ⟨[], 0, []⟩
  simp only [List.flatten_nil, List.nil_append] at h1
  unfold copyWorker finishWorker
  by_cases hE : (docs.foldl copyDoc ⟨[], 0, []⟩).buffer.isEmpty = true
  · have hnil : (docs.foldl copyDoc ⟨[], 0, []⟩).buffer = [] := by
      simpa using hE
    rw [if_pos hE]
    rw [hnil, List.append_nil] at h1
    exact ⟨h1, by simpa using h2⟩
  · rw [if_neg hE]
    refine ⟨?_, by simpa using h2⟩
    rw [List.flatten_append]
    simpa using h1

/-- Each restore-loop iteration agrees with the copy-loop iteration on the
parsed document, and skips blank or unparsable lines. -/
lemma restore_foldl_eq {Doc : Type} (deser : String → Option Doc)
    (lines : List String) :
    ∀ st : BatchState Doc,
      lines.foldl (restoreLine deser) st
        = (parsedDocs deser lines).foldl copyDoc st := by
  induction lines with
  | nil => intro st; simp [parsedDocs]
  | cons l ls ih =>
    intro st
    by_cases hl : l = ""
    · subst hl
      have e1 : restoreLine deser st "" = st := by simp [restoreLine]
      have e2 : parsedDocs deser ("" :: ls) = parsedDocs deser ls := by
        simp [parsedDocs]
      rw [List.foldl_cons, e1, e2]
      exact ih st
    · cases hd : deser l with
      | none =>
        have e1 : restoreLine deser st l = st := by
          unfold restoreLine; rw [if_neg hl, hd]
        have e2 : parsedDocs deser (l :: ls) = parsedDocs deser ls := by
          simp [parsedDocs, List.filterMap_cons, hl, hd]
        rw [List.foldl_cons, e1, e2]
        exact ih st
      | some d =>
        have e1 : restoreLine deser st l = copyDoc st d := by
          unfold restoreLine copyDoc; rw [if_neg hl, hd]
        have e2 : parsedDocs deser (l :: ls) = d :: parsedDocs deser ls := by
          simp [parsedDocs, List.filterMap_cons, hl, hd]
        rw [List.foldl_cons, e1, e2, List.foldl_cons]
        exact ih (copyDoc st d)

/-- The import worker behaves exactly like the copy worker run on the
documents parsed from its file. -/
lemma restoreWorker_eq_copy {Doc : Type} (deser : String → Option Doc)
    (lines : List String) :
    restoreWorker deser lines = copyWorker (parsedDocs deser lines) := by
  unfold restoreWorker copyWorker
  rw [restore_foldl_eq]

/-- The import worker bulk-inserts exactly the successfully parsed
documents of its file, and counts exactly those. -/
lemma restoreWorker_spec {Doc : Type} (deser : String → Option Doc)
    (lines : List String) :
    (restoreWorker deser lines).inserts.flatten = parsedDocs deser lines
    ∧ (restoreWorker deser lines).count = (parsedDocs deser lines).length := by
  rw [restoreWorker_eq_copy]
  exact copyWorker_spec _

/-! Batch-size invariants. -/

/-- Along the copy loop the buffer stays strictly below the threshold and
every batch already issued has exactly `BATCH_SIZE` documents. -/
lemma copy_foldl_batches {Doc : Type} (docs : List Doc) :
    ∀ st : BatchState Doc,
      st.buffer.length < BATCH_SIZE →
      (∀ b ∈ st.inserts, b.length = BATCH_SIZE) →
      (docs.foldl copyDoc st).buffer.length < BATCH_SIZE
      ∧ ∀ b ∈ (docs.foldl copyDoc st).inserts, b.length = BATCH_SIZE := by
  induction docs with
  | nil => intro st h1 h2; exact ⟨h1, h2⟩
  | cons d ds ih =>
    intro st h1 h2
    rw [List.foldl_cons]
    by_cases hb : BATCH_SIZE ≤ (st.buffer ++ [d]).length
    · have e : copyDoc st d = ⟨[], st.count + 1, st.inserts ++ [st.buffer ++ [d]]⟩ := by
        simp only [copyDoc]; rw [if_pos hb]
      rw [e]
      apply ih
      · simp [BATCH_SIZE]
      · intro b hmem
        rcases List.mem_append.mp hmem with h | h
        · exact h2 b h
        · have hb' : b = st.buffer ++ [d] := by simpa using h
          subst hb'
          simp only [List.length_append, List.length_cons, List.length_nil] at hb ⊢
          omega
    · have e : copyDoc st d = ⟨st.buffer ++ [d], st.count + 1, st.inserts⟩ := by
        simp only [copyDoc]; rw [if_neg hb]
      rw [e]
      apply ih
      · simpa using Nat.lt_of_not_le hb
      · exact h2

/-- Every bulk-insert the copy worker issues is non-empty and at most
`BATCH_SIZE` documents; every one except possibly the last is exactly
`BATCH_SIZE`. -/
lemma copyWorker_batches {Doc : Type} (docs : List Doc) :
    (∀ b ∈ (copyWorker docs).inserts.dropLast, b.length = BATCH_SIZE)
    ∧ ∀ b ∈ (copyWorker docs).inserts, b ≠ [] ∧ b.length ≤ BATCH_SIZE := by
  obtain ⟨h1, h2⟩ := copy_foldl_batches docs ⟨[], 0, []⟩
    (by simp [BATCH_SIZE]) (by simp)
  unfold copyWorker finishWorker
  by_cases hE : (docs.foldl copyDoc ⟨[], 0, []⟩).buffer.isEmpty = true
  · rw [if_pos hE]
    constructor
    · intro b hmem
      exact h2 b ((List.dropLast_sublist _).subset hmem)
    · intro b hmem
      have hlen := h2 b hmem
      refine ⟨?_, le_of_eq hlen⟩
      intro hnil
      rw [hnil] at hlen
      simp [BATCH_SIZE] at hlen
  · rw [if_neg hE]
    have hne : (docs.foldl copyDoc ⟨[], 0, []⟩).buffer ≠ [] := by
      simpa using hE
    constructor
    · intro b hmem
      rw [List.dropLast_concat] at hmem
      exact h2 b hmem
    · intro b hmem
      rcases List.mem_append.mp hmem with h | h
      · have hlen := h2 b h
        refine ⟨?_, le_of_eq hlen⟩
        intro hnil
        rw [hnil] at hlen
        simp [BATCH_SIZE] at hlen
      · have hb' : b = (docs.foldl copyDoc ⟨[], 0, []⟩).buffer := by simpa using h
        subst hb'
        exact ⟨hne, le_of_lt h1⟩

/-! Concrete computations at the 20,001-document boundary, carried out by
induction rather than by evaluation. -/

/-- Below the threshold, the copy loop only accumulates. -/
lemma copy_foldl_replicate {Doc : Type} (d : Doc) :
    ∀ m : Nat, m < BATCH_SIZE →
      (List.replicate m d).foldl copyDoc ⟨[], 0, []⟩
        = ⟨List.replicate m d, m, []⟩ := by
  intro m
  induction m with
  | zero => intro _; rfl
  | succ n ih =>
    intro h
    rw [List.replicate_succ' .., List.foldl_append, ih (by omega)]
    show copyDoc ⟨List.replicate n d, n, []⟩ d = _
    have hb : ¬ BATCH_SIZE ≤ (List.replicate n d ++ [d]).length := by
      simp only [List.length_append, List.length_replicate, List.length_cons,
        List.length_nil]
      omega
    simp only [copyDoc]
    rw [if_neg hb, ← List.replicate_succ' ..]

/-- Feeding exactly 20,001 documents to the copy worker issues exactly two
bulk-inserts: one of 20,000 documents and a final one of the single
remaining document. -/
lemma copy_foldl_snoc {Doc : Type} (docs : List Doc) (d : Doc)
    (st : BatchState Doc) :
    (docs ++ [d]).foldl copyDoc st = copyDoc (docs.foldl copyDoc st) d := by
  rw [List.foldl_append]
  rfl

lemma copyWorker_20001 {Doc : Type} (d : Doc) :
    copyWorker (List.replicate 20001 d)
      = ⟨[List.replicate 20000 d, [d]], 20001⟩ := by
  have h19999 := copy_foldl_replicate d 19999 (by norm_num [BATCH_SIZE])
  have e1 : List.replicate 20000 d = List.replicate 19999 d ++ [d] := by
    have e : (20000 : Nat) = 19999 + 1 := by norm_num
    rw [e, List.replicate_succ' ..]
  have e2 : List.replicate 20001 d = List.replicate 20000 d ++ [d] := by
    have e : (20001 : Nat) = 20000 + 1 := by norm_num
    rw [e, List.replicate_succ' ..]
  have h20000 : (List.replicate 20000 d).foldl copyDoc ⟨[], 0, []⟩
      = ⟨[], 20000, [List.replicate 20000 d]⟩ := by
    rw [e1, copy_foldl_snoc, h19999]
    have hb : BATCH_SIZE ≤ (List.replicate 19999 d ++ [d]).length := by
      simp only [List.length_append, List.length_replicate, List.length_cons,
        List.length_nil, BATCH_SIZE]
      omega
    simp only [copyDoc]
    rw [if_pos hb, ← e1]
    simp only [List.nil_append]
  have h20001 : (List.replicate 20001 d).foldl copyDoc ⟨[], 0, []⟩
      = ⟨[d], 20001, [List.replicate 20000 d]⟩ := by
    rw [e2, copy_foldl_snoc, h20000]
    have hb : ¬ BATCH_SIZE ≤ (([] : List Doc) ++ [d]).length := by
      simp [BATCH_SIZE]
    simp only [copyDoc]
    rw [if_neg hb]
    simp only [List.nil_append]
  unfold copyWorker
  rw [h20001]
  rfl

/-- Parsing a file of `n` copies of one well-formed line yields `n` copies
of its document. -/
lemma parsedDocs_replicate {Doc : Type} (deser : String → Option Doc)
    (s : String) (d : Doc) (hs : s ≠ "") (hd : deser s = some d) :
    ∀ n : Nat, parsedDocs deser (List.replicate n s) = List.replicate n d := by
  intro n
  induction n with
  | zero => rfl
  | succ m ih =>
    rw [List.replicate_succ, List.replicate_succ]
    simp only [parsedDocs, List.filterMap_cons] at ih ⊢
    rw [if_neg hs, hd, ih]

/-! Lemmas about applying the issued operations to the target. -/

/-- Applying any run of bulk-inserts, with arbitrary per-insert success or
failure, never removes a document already in the target. -/
lemma applyOpsFrom_inserts_le {Doc : Type} (ok : Nat → Bool)
    (bs : List (List Doc)) :
    ∀ (i : Nat) (s : Multiset Doc),
      s ≤ applyOpsFrom ok i s (bs.map DbOp.insertMany) := by
  induction bs with
  | nil => intro i s; simp [applyOpsFrom]
  | cons b rest ih =>
    intro i s
    rw [List.map_cons]
    show s ≤ applyOpsFrom ok (i + 1)
      (if ok i then applyOp s (.insertMany b) else s) (rest.map DbOp.insertMany)
    refine le_trans ?_ (ih (i + 1) _)
    by_cases h : ok i = true
    · rw [if_pos h]
      exact Multiset.le_add_right ..
    · rw [if_neg h]

/-- When every bulk-insert succeeds, the target gains exactly the
concatenation of the issued batches. -/
lemma applyOpsFrom_inserts_allOk {Doc : Type} (ok : Nat → Bool)
    (hok : ∀ j, ok j = true) (bs : List (List Doc)) :
    ∀ (i : Nat) (s : Multiset Doc),
      applyOpsFrom ok i s (bs.map DbOp.insertMany) = s + ↑bs.flatten := by
  induction bs with
  | nil => intro i s; simp [applyOpsFrom]
  | cons b rest ih =>
    intro i s
    rw [List.map_cons]
    show applyOpsFrom ok (i + 1)
      (if ok i then applyOp s (.insertMany b) else s) (rest.map DbOp.insertMany)
      = s + ↑(b :: rest).flatten
    rw [if_pos (hok i), ih (i + 1)]
    show s + ↑b + ↑rest.flatten = _
    rw [List.flatten_cons, ← Multiset.coe_add, add_assoc]

/-! Lemmas about the export scan. -/

/-- The export loop counts every document the cursor yields (the count is
incremented before serialization is attempted), and cannot write more
lines than it counts documents. -/
lemma backup_foldl_spec {Doc : Type} (serialize : Doc → Option String)
    (writeOk : Nat → Bool) (docs : List Doc) :
    ∀ st : List String × Nat × Nat,
      (docs.foldl (backupStep serialize writeOk) st).2.1
        = st.2.1 + docs.length
      ∧ (docs.foldl (backupStep serialize writeOk) st).1.length
        ≤ st.1.length + docs.length := by
  induction docs with
  | nil => intro st; simp
  | cons d ds ih =>
    intro st
    rw [List.foldl_cons]
    cases hs : serialize d with
    | none =>
      have e : backupStep serialize writeOk st d = (st.1, st.2.1 + 1, st.2.2) := by
        unfold backupStep; rw [hs]
      rw [e]
      obtain ⟨h1, h2⟩ := ih (st.1, st.2.1 + 1, st.2.2)
      refine ⟨by rw [h1]; simp; try omega, ?_⟩
      refine le_trans h2 ?_
      simp
      try omega
    | some s =>
      by_cases hw : writeOk st.2.2 = true
      · have e : backupStep serialize writeOk st d
            = (st.1 ++ [s], st.2.1 + 1, st.2.2 + 1) := by
          unfold backupStep; rw [hs]; dsimp only; rw [if_pos hw]
        rw [e]
        obtain ⟨h1, h2⟩ := ih (st.1 ++ [s], st.2.1 + 1, st.2.2 + 1)
        refine ⟨by rw [h1]; simp; try omega, ?_⟩
        refine le_trans h2 ?_
        simp
        try omega
      · have e : backupStep serialize writeOk st d
            = (st.1, st.2.1 + 1, st.2.2 + 1) := by
          unfold backupStep; rw [hs]; dsimp only; rw [if_neg hw]
        rw [e]
        obtain ⟨h1, h2⟩ := ih (st.1, st.2.1 + 1, st.2.2 + 1)
        refine ⟨by rw [h1]; simp; try omega, ?_⟩
        refine le_trans h2 ?_
        simp
        try omega

/-- The reported export count equals the number of cursor documents. -/
lemma backupScan_count {Doc : Type} (serialize : Doc → Option String)
    (writeOk : Nat → Bool) (docs : List Doc) :
    (backupScan serialize writeOk docs).2 = docs.length := by
  have h := (backup_foldl_spec serialize writeOk docs ([], 0, 0)).1
  unfold backupScan
  simpa using h

/-- The file never holds more lines than the reported count. -/
lemma backupScan_le {Doc : Type} (serialize : Doc → Option String)
    (writeOk : Nat → Bool) (docs : List Doc) :
    (backupScan serialize writeOk docs).1.length
      ≤ (backupScan serialize writeOk docs).2 := by
  rw [backupScan_count]
  have h := (backup_foldl_spec serialize writeOk docs ([], 0, 0)).2
  unfold backupScan
  simpa using h

/-- When every line write succeeds, the file holds exactly the
serializations that succeeded, in cursor order. -/
lemma backup_foldl_lines {Doc : Type} (serialize : Doc → Option String)
    (docs : List Doc) :
    ∀ st : List String × Nat × Nat,
      (docs.foldl (backupStep serialize (fun _ => true)) st).1
        = st.1 ++ docs.filterMap serialize := by
  induction docs with
  | nil => intro st; simp
  | cons d ds ih =>
    intro st
    rw [List.foldl_cons]
    cases hs : serialize d with
    | none =>
      have e : backupStep serialize (fun _ => true) st d
          = (st.1, st.2.1 + 1, st.2.2) := by
        unfold backupStep; rw [hs]
      rw [e, ih]
      simp [List.filterMap_cons, hs]
    | some s =>
      have e : backupStep serialize (fun _ => true) st d
          = (st.1 ++ [s], st.2.1 + 1, st.2.2 + 1) := by
        unfold backupStep; rw [hs]; simp
      rw [e, ih]
      simp [List.filterMap_cons, hs]

/-- Export lines with no write failures: exactly the successfully
serialized documents. -/
lemma backupScan_lines {Doc : Type} (serialize : Doc → Option String)
    (docs : List Doc) :
    (backupScan serialize (fun _ => true) docs).1 = docs.filterMap serialize := by
  have h := backup_foldl_lines serialize docs ([], 0, 0)
  unfold backupScan
  simpa using h

/-! Order facts for the path comparison. -/

lemma charsLt_irrefl : ∀ l : List Char, charsLt l l = false := by
  intro l
  induction l with
  | nil => rfl
  | cons a as ih =>
    unfold charsLt
    rw [if_neg (lt_irrefl a), if_neg (lt_irrefl a)]
    exact ih

lemma charsLt_trans :
    ∀ x y z : List Char, charsLt x y = true → charsLt y z = true →
      charsLt x z = true := by
  intro x
  induction x with
  | nil =>
    intro y z hxy hyz
    cases y with
    | nil => exact absurd hxy (by simp [charsLt])
    | cons b bs =>
      cases z with
      | nil => exact absurd hyz (by simp [charsLt])
      | cons c cs => rfl
  | cons a as ih =>
    intro y z hxy hyz
    cases y with
    | nil => exact absurd hxy (by simp [charsLt])
    | cons b bs =>
      cases z with
      | nil => exact absurd hyz (by simp [charsLt])
      | cons c cs =>
        unfold charsLt at hxy hyz ⊢
        by_cases hab : a < b
        · by_cases hbc : b < c
          · rw [if_pos (lt_trans hab hbc)]
          · rw [if_neg hbc] at hyz
            by_cases hcb : c < b
            · rw [if_pos hcb] at hyz
              exact absurd hyz (by simp)
            · have hbc' : b = c := le_antisymm (not_lt.mp hcb) (not_lt.mp hbc)
              rw [if_pos (hbc' ▸ hab)]
        · rw [if_neg hab] at hxy
          by_cases hba : b < a
          · rw [if_pos hba] at hxy
            exact absurd hxy (by simp)
          · rw [if_neg hba] at hxy
            have hab' : a = b := le_antisymm (not_lt.mp hba) (not_lt.mp hab)
            by_cases hbc : b < c
            · rw [if_pos (hab' ▸ hbc)]
            · rw [if_neg hbc] at hyz
              by_cases hcb : c < b
              · rw [if_pos hcb] at hyz
                exact absurd hyz (by simp)
              · rw [if_neg hcb] at hyz
                have hbc' : b = c := le_antisymm (not_lt.mp hcb) (not_lt.mp hbc)
                have hac : ¬ a < c := by rw [hab', hbc']; exact lt_irrefl c
                have hca : ¬ c < a := by rw [hab', hbc']; exact lt_irrefl c
                rw [if_neg hac, if_neg hca]
                exact ih bs cs hxy hyz

lemma charsLt_antisymm :
    ∀ x y : List Char, charsLt x y = false → charsLt y x = false → x = y := by
  intro x
  induction x with
  | nil =>
    intro y hxy _
    cases y with
    | nil => rfl
    | cons b bs => exact absurd hxy (by simp [charsLt])
  | cons a as ih =>
    intro y hxy hyx
    cases y with
    | nil => exact absurd hyx (by simp [charsLt])
    | cons b bs =>
      unfold charsLt at hxy hyx
      by_cases hab : a < b
      · rw [if_pos hab] at hxy
        exact absurd hxy (by simp)
      · by_cases hba : b < a
        · rw [if_pos hba] at hyx
          exact absurd hyx (by simp)
        · rw [if_neg hab, if_neg hba] at hxy
          rw [if_neg hba, if_neg hab] at hyx
          have h1 : a = b := le_antisymm (not_lt.mp hba) (not_lt.mp hab)
          have h2 : as = bs := ih bs hxy hyx
          rw [h1, h2]

lemma strLt_irrefl (a : String) : strLt a a = false := charsLt_irrefl a.data

lemma strLt_trans {a b c : String} (h1 : strLt a b = true)
    (h2 : strLt b c = true) : strLt a c = true :=
  charsLt_trans a.data b.data c.data h1 h2

lemma strLt_antisymm {a b : String} (h1 : strLt a b = false)
    (h2 : strLt b a = false) : a = b := by
  have h := charsLt_antisymm a.data b.data h1 h2
  cases a
  cases b
  exact congrArg String.mk h

lemma pathLt_irrefl : ∀ p : List String, pathLt p p = false := by
  intro p
  induction p with
  | nil => rfl
  | cons a as ih =>
    unfold pathLt
    rw [strLt_irrefl]
    simp only [Bool.false_eq_true, if_false]
    exact ih

lemma pathLt_trans :
    ∀ x y z : List String, pathLt x y = true → pathLt y z = true →
      pathLt x z = true := by
  intro x
  induction x with
  | nil =>
    intro y z hxy hyz
    cases y with
    | nil => exact absurd hxy (by simp [pathLt])
    | cons b bs =>
      cases z with
      | nil => exact absurd hyz (by simp [pathLt])
      | cons c cs => rfl
  | cons a as ih =>
    intro y z hxy hyz
    cases y with
    | nil => exact absurd hxy (by simp [pathLt])
    | cons b bs =>
      cases z with
      | nil => exact absurd hyz (by simp [pathLt])
      | cons c cs =>
        unfold pathLt at hxy hyz ⊢
        by_cases hab : strLt a b = true
        · by_cases hbc : strLt b c = true
          · rw [if_pos (strLt_trans hab hbc)]
          · rw [if_neg hbc] at hyz
            by_cases hcb : strLt c b = true
            · rw [if_pos hcb] at hyz
              exact absurd hyz (by simp)
            · have hbc' : b = c :=
                strLt_antisymm (Bool.not_eq_true _ ▸ hbc) (Bool.not_eq_true _ ▸ hcb)
              rw [if_pos (hbc' ▸ hab)]
        · rw [if_neg hab] at hxy
          by_cases hba : strLt b a = true
          · rw [if_pos hba] at hxy
            exact absurd hxy (by simp)
          · rw [if_neg hba] at hxy
            have hab' : a = b :=
              strLt_antisymm (Bool.not_eq_true _ ▸ hab) (Bool.not_eq_true _ ▸ hba)
            by_cases hbc : strLt b c = true
            · rw [if_pos (hab' ▸ hbc)]
            · rw [if_neg hbc] at hyz
              by_cases hcb : strLt c b = true
              · rw [if_pos hcb] at hyz
                exact absurd hyz (by simp)
              · rw [if_neg hcb] at hyz
                have hbc' : b = c :=
                  strLt_antisymm (Bool.not_eq_true _ ▸ hbc) (Bool.not_eq_true _ ▸ hcb)
                have hac : ¬ strLt a c = true := by
                  rw [hab', hbc']
                  simp [strLt_irrefl]
                have hca : ¬ strLt c a = true := by
                  rw [hab', hbc']
                  simp [strLt_irrefl]
                rw [if_neg hac, if_neg hca]
                exact ih bs cs hxy hyz

lemma pathLt_antisymm :
    ∀ x y : List String, pathLt x y = false → pathLt y x = false → x = y := by
  intro x
  induction x with
  | nil =>
    intro y hxy _
    cases y with
    | nil => rfl
    | cons b bs => exact absurd hxy (by simp [pathLt])
  | cons a as ih =>
    intro y hxy hyx
    cases y with
    | nil => exact absurd hyx (by simp [pathLt])
    | cons b bs =>
      unfold pathLt at hxy hyx
      by_cases hab : strLt a b = true
      · rw [if_pos hab] at hxy
        exact absurd hxy (by simp)
      · by_cases hba : strLt b a = true
        · rw [if_pos hba] at hyx
          exact absurd hyx (by simp)
        · rw [if_neg hab, if_neg hba] at hxy
          rw [if_neg hba, if_neg hab] at hyx
          have h1 : a = b :=
            strLt_antisymm (Bool.not_eq_true _ ▸ hab) (Bool.not_eq_true _ ▸ hba)
          have h2 : as = bs := ih bs hxy hyx
          rw [h1, h2]

/-! Characterization of the latest-folder fold. -/

/-- Invariant of the fold in restore.rs lines 138-156: the running result
never compares below the starting value, never compares below any
directory entry already processed, and is either the starting value or one
of the processed directory paths. -/
lemma latestFold_go (folder : List String) (entries : List DirEntry) :
    ∀ mx : List String,
      pathLt (entries.foldl (latestStep folder) mx) mx = false
      ∧ (∀ e ∈ entries, e.isDir = true →
          pathLt (entries.foldl (latestStep folder) mx) (folder ++ [e.name]) = false)
      ∧ (entries.foldl (latestStep folder) mx = mx
          ∨ ∃ e, e ∈ entries ∧ e.isDir = true
              ∧ entries.foldl (latestStep folder) mx = folder ++ [e.name]) := by
  induction entries with
  | nil =>
    intro mx
    refine ⟨pathLt_irrefl mx, ?_, Or.inl rfl⟩
    intro e he
    exact absurd he (List.not_mem_nil e)
  | cons e es ih =>
    intro mx
    rw [List.foldl_cons]
    by_cases h : (e.isDir && pathLt mx (folder ++ [e.name])) = true
    · have hstep : latestStep folder mx e = folder ++ [e.name] := by
        unfold latestStep
        rw [if_pos h]
      obtain ⟨hdir, hlt⟩ := Bool.and_eq_true .. |>.mp h
      rw [hstep]
      obtain ⟨ih1, ih2, ih3⟩ := ih (folder ++ [e.name])
      refine ⟨?_, ?_, ?_⟩
      · cases hr : pathLt (es.foldl (latestStep folder) (folder ++ [e.name])) mx with
        | false => rfl
        | true => exact absurd (pathLt_trans _ _ _ hr hlt) (by rw [ih1]; simp)
      · intro f hf hfd
        rcases List.mem_cons.mp hf with rfl | hmem
        · exact ih1
        · exact ih2 f hmem hfd
      · rcases ih3 with h3 | ⟨f, hf, hfd, hfe⟩
        · exact Or.inr ⟨e, List.mem_cons_self .., hdir, h3⟩
        · exact Or.inr ⟨f, List.mem_cons_of_mem e hf, hfd, hfe⟩
    · have hstep : latestStep folder mx e = mx := by
        unfold latestStep
        rw [if_neg h]
      rw [hstep]
      obtain ⟨ih1, ih2, ih3⟩ := ih mx
      refine ⟨ih1, ?_, ?_⟩
      · intro f hf hfd
        rcases List.mem_cons.mp hf with rfl | hmem
        · -- the entry was not taken although it is a directory, so its
          -- path does not compare above the running maximum
          have hlt : pathLt mx (folder ++ [f.name]) = false := by
            cases hq : pathLt mx (folder ++ [f.name]) with
            | false => rfl
            | true => exact absurd (by rw [hfd, hq]; rfl) h
          cases hr : pathLt (es.foldl (latestStep folder) mx) (folder ++ [f.name]) with
          | false => rfl
          | true =>
            exfalso
            cases hpm : pathLt (folder ++ [f.name]) mx with
            | false =>
              have hme : mx = folder ++ [f.name] := pathLt_antisymm _ _ hlt hpm
              rw [← hme] at hr
              rw [ih1] at hr
              exact Bool.false_ne_true hr
            | true =>
              have := pathLt_trans _ _ _ hr hpm
              rw [ih1] at this
              exact Bool.false_ne_true this
        · exact ih2 f hmem hfd
      · rcases ih3 with h3 | ⟨f, hf, hfd, hfe⟩
        · exact Or.inl h3
        · exact Or.inr ⟨f, List.mem_cons_of_mem e hf, hfd, hfe⟩

/-- The selected restore folder is the empty path or one of the directory
entries' paths, it compares at least as high as every directory entry, and
it is the empty path when the backups folder holds no subdirectory. -/
lemma latestFold_spec (folder : List String) (entries : List DirEntry) :
    (∀ e ∈ entries, e.isDir = true →
        pathLt (latestFold folder entries) (folder ++ [e.name]) = false)
    ∧ (latestFold folder entries = []
        ∨ ∃ e, e ∈ entries ∧ e.isDir = true
            ∧ latestFold folder entries = folder ++ [e.name])
    ∧ ((∀ e ∈ entries, e.isDir = false) → latestFold folder entries = []) := by
  obtain ⟨_, h2, h3⟩ := latestFold_go folder entries []
  refine ⟨h2, h3, ?_⟩
  intro hnone
  rcases h3 with h | ⟨e, he, hdir, _⟩
  · exact h
  · rw [hnone e he] at hdir
    exact absurd hdir (by simp)

/-- Documents parsed from a map of well-formed serializations are the
original documents. -/
lemma parsedDocs_map_ser {Doc : Type} (ser : Doc → String)
    (deser : String → Option Doc) :
    ∀ docs : List Doc,
      (∀ d ∈ docs, ser d ≠ "" ∧ deser (ser d) = some d) →
      parsedDocs deser (docs.map ser) = docs := by
  intro docs
  induction docs with
  | nil => intro _; rfl
  | cons d ds ih =>
    intro h
    obtain ⟨h1, h2⟩ := h d (List.mem_cons_self ..)
    have hds := fun x hx => h x (List.mem_cons_of_mem d hx)
    rw [List.map_cons]
    unfold parsedDocs at ih ⊢
    rw [List.filterMap_cons]
    have e : (if ser d = "" then none else deser (ser d)) = some d := by
      rw [if_neg h1, h2]
    rw [e]
    dsimp only
    rw [ih hds]

/-! Claim theorems. -/

/-- Claim C3: a per-collection worker issues one unordered bulk-insert
exactly when its buffer reaches 20,000 accumulated documents (every
non-final batch has exactly 20,000 documents, every batch is non-empty and
at most 20,000) and flushes the non-empty remainder at end of input; a
file of exactly 20,001 documents triggers exactly two bulk-inserts, of
sizes 20,000 and 1, in Import and in Copy alike. -/
theorem C3_batch_flush {Doc : Type} (deser : String → Option Doc)
    (lines : List String) (s : String) (d : Doc)
    (hs : s ≠ "") (hd : deser s = some d) :
    (∀ b ∈ (restoreWorker deser lines).inserts.dropLast, b.length = BATCH_SIZE)
    ∧ (∀ b ∈ (restoreWorker deser lines).inserts, b ≠ [] ∧ b.length ≤ BATCH_SIZE)
    ∧ (restoreWorker deser (List.replicate 20001 s)).inserts.map List.length
        = [20000, 1]
    ∧ (copyWorker (List.replicate 20001 d)).inserts.map List.length
        = [20000, 1] := by
  have heq := restoreWorker_eq_copy deser lines
  have hbatch := copyWorker_batches (parsedDocs deser lines)
  have h2 : restoreWorker deser (List.replicate 20001 s)
      = copyWorker (List.replicate 20001 d) := by
    rw [restoreWorker_eq_copy, parsedDocs_replicate deser s d hs hd]
  refine ⟨?_, ?_, ?_, ?_⟩
  · rw [heq]; exact hbatch.1
  · rw [heq]; exact hbatch.2
  · rw [h2, copyWorker_20001]
    simp only [List.map_cons, List.map_nil, List.length_replicate,
      List.length_cons, List.length_nil]
  · rw [copyWorker_20001]
    simp only [List.map_cons, List.map_nil, List.length_replicate,
      List.length_cons, List.length_nil]

/-- Witness for C3 at a concrete parser and line. -/
theorem C3_batch_flush_witness :
    (restoreWorker (fun l => if l = "x" then some (0 : Nat) else none)
      (List.replicate 20001 "x")).inserts.map List.length = [20000, 1] :=
  (C3_batch_flush (fun l => if l = "x" then some (0 : Nat) else none)
    [] "x" 0 (by decide) (by simp)).2.2.1

/-- Claim C9: for the same sequence of delivered documents, Copy's
accumulate-and-insert behavior is exactly Import's — same batching, same
bulk-inserts, same final flush, same count. -/
theorem C9_copy_equals_import {Doc : Type} (deser : String → Option Doc)
    (lines : List String) :
    copyWorker (parsedDocs deser lines) = restoreWorker deser lines :=
  (restoreWorker_eq_copy deser lines).symm

/-- Claim C8: blank lines are skipped, a line that fails to parse is
skipped without affecting any other line, and all remaining well-formed
lines of the collection are processed and issued for insertion. -/
theorem C8_skip_bad_lines {Doc : Type} (deser : String → Option Doc)
    (st : BatchState Doc) (l : String) (lines : List String)
    (hne : l ≠ "") (hbad : deser l = none) :
    restoreLine deser st "" = st
    ∧ restoreLine deser st l = st
    ∧ (restoreWorker deser lines).inserts.flatten = parsedDocs deser lines
    ∧ (restoreWorker deser lines).count = (parsedDocs deser lines).length := by
  refine ⟨by simp [restoreLine], ?_, (restoreWorker_spec deser lines).1,
    (restoreWorker_spec deser lines).2⟩
  unfold restoreLine
  rw [if_neg hne, hbad]

/-- Witness for C8: a file with one blank and one malformed line still
yields both well-formed documents. -/
theorem C8_skip_bad_lines_witness :
    (restoreWorker (fun v => if v = "a" then some (1 : Nat) else none)
      ["a", "", "zz", "a"]).inserts.flatten = [1, 1]
    ∧ (restoreWorker (fun v => if v = "a" then some (1 : Nat) else none)
      ["a", "", "zz", "a"]).count = 2 := by
  have h := C8_skip_bad_lines (fun v => if v = "a" then some (1 : Nat) else none)
    ⟨[], 0, []⟩ "zz" ["a", "", "zz", "a"] (by decide) (by simp)
  refine ⟨?_, ?_⟩
  · rw [h.2.2.1]; decide
  · rw [h.2.2.2]; decide

/-- Claim C5: Import and Copy are strictly additive — the only operations
a worker issues are bulk-inserts, so whatever the per-insert outcomes,
every pre-existing target document remains present; with all inserts
succeeding, copying `n` source documents into a target collection leaves
it with its old cardinality plus `n`. -/
theorem C5_strictly_additive {Doc : Type} (docs : List Doc)
    (deser : String → Option Doc) (lines : List String)
    (init : Multiset Doc) (ok : Nat → Bool) :
    (∀ op ∈ (copyWorker docs).ops, ∃ b, op = DbOp.insertMany b)
    ∧ (∀ op ∈ (restoreWorker deser lines).ops, ∃ b, op = DbOp.insertMany b)
    ∧ init ≤ applyOpsFrom ok 0 init (copyWorker docs).ops
    ∧ init ≤ applyOpsFrom ok 0 init (restoreWorker deser lines).ops
    ∧ ((∀ j, ok j = true) →
        (applyOpsFrom ok 0 init (copyWorker docs).ops).card
          = init.card + docs.length) := by
  refine ⟨?_, ?_, ?_, ?_, ?_⟩
  · intro op hop
    obtain ⟨b, _, hb⟩ := List.mem_map.mp hop
    exact ⟨b, hb.symm⟩
  · intro op hop
    obtain ⟨b, _, hb⟩ := List.mem_map.mp hop
    exact ⟨b, hb.symm⟩
  · exact applyOpsFrom_inserts_le ok (copyWorker docs).inserts 0 init
  · exact applyOpsFrom_inserts_le ok (restoreWorker deser lines).inserts 0 init
  · intro hok
    show (applyOpsFrom ok 0 init ((copyWorker docs).inserts.map DbOp.insertMany)).card = _
    rw [applyOpsFrom_inserts_allOk ok hok (copyWorker docs).inserts 0 init,
      (copyWorker_spec docs).1]
    simp

/-- Witness for C5: copying 5 documents into a target that already holds 2
leaves 7. -/
theorem C5_strictly_additive_witness :
    (applyOpsFrom (fun _ => true) 0 (↑[7, 8] : Multiset Nat)
      (copyWorker [1, 2, 3, 4, 5]).ops).card = 7 := by
  have h := (C5_strictly_additive [1, 2, 3, 4, 5]
    (fun _ : String => (none : Option Nat)) [] (↑[7, 8] : Multiset Nat)
    (fun _ => true)).2.2.2.2 (fun j => rfl)
  rw [h]
  decide

/-- Claim C10: the per-collection count is a count of documents read, not
written: the Export count equals the number of cursor documents whatever
the serialization and write outcomes, the file never holds more lines than
the count, the Import count equals the number of successfully parsed
lines, and there are runs where the count strictly exceeds the lines in
the file, respectively the documents landing in the target. -/
theorem C10_count_is_read_count {Doc : Type} (serialize : Doc → Option String)
    (writeOk : Nat → Bool) (docs : List Doc)
    (deser : String → Option Doc) (lines : List String) :
    (backupScan serialize writeOk docs).2 = docs.length
    ∧ (backupScan serialize writeOk docs).1.length
        ≤ (backupScan serialize writeOk docs).2
    ∧ (restoreWorker deser lines).count = (parsedDocs deser lines).length
    ∧ (∃ (docs2 : List Nat) (ser2 : Nat → Option String),
        (backupScan ser2 (fun _ => true) docs2).1.length
          < (backupScan ser2 (fun _ => true) docs2).2)
    ∧ (∃ (lines2 : List String) (des2 : String → Option Nat) (ok2 : Nat → Bool),
        (applyOpsFrom ok2 0 0 (restoreWorker des2 lines2).ops).card
          < (restoreWorker des2 lines2).count) := by
  refine ⟨backupScan_count serialize writeOk docs,
    backupScan_le serialize writeOk docs,
    (restoreWorker_spec deser lines).2, ?_, ?_⟩
  · exact ⟨[1], fun _ => none, by decide⟩
  · refine ⟨List.replicate 20001 "x",
      fun v => if v = "x" then some 0 else none, fun i => decide (0 < i), ?_⟩
    have h2 : restoreWorker (fun v => if v = "x" then some (0 : Nat) else none)
        (List.replicate 20001 "x")
        = ⟨[List.replicate 20000 0, [0]], 20001⟩ := by
      rw [restoreWorker_eq_copy,
        parsedDocs_replicate _ "x" 0 (by decide) (by simp), copyWorker_20001]
    rw [h2]
    show (applyOpsFrom (fun i => decide (0 < i)) 0 0
      ([List.replicate 20000 (0 : Nat), [0]].map DbOp.insertMany)).card < 20001
    rw [List.map_cons, List.map_cons, List.map_nil]
    show (applyOpsFrom (fun i => decide (0 < i)) 1
      (if decide (0 < 0) = true then _ else 0) [DbOp.insertMany [0]]).card < 20001
    rw [if_neg (by decide)]
    show (applyOpsFrom (fun i => decide (0 < i)) 2
      (if decide (0 < 1) = true then applyOp 0 (DbOp.insertMany [0]) else 0) []).card < 20001
    rw [if_pos (by decide)]
    show (applyOp 0 (DbOp.insertMany [(0 : Nat)])).card < 20001
    decide

/-- Claim C6 as stated is false: it asserts that a failed bulk-insert is
fatal to the remainder of that collection's worker, which then processes
no further documents or batches.  In restore.rs lines 76-87 (and copy.rs
lines 38-49) a failed mid-stream `insert_many` is only logged and the loop
continues, so the issued-insert trace does not depend on insert outcomes
at all: restoring 20,001 documents whose first batch's insert fails still
issues a second bulk-insert of the last document (which, succeeding,
lands in the target) and still counts all 20,001 documents. -/
theorem C6_counterexample :
    (restoreWorker (fun v => if v = "y" then some (0 : Nat) else none)
      (List.replicate 20001 "y")).inserts.map List.length = [20000, 1]
    ∧ (restoreWorker (fun v => if v = "y" then some (0 : Nat) else none)
      (List.replicate 20001 "y")).count = 20001
    ∧ applyOpsFrom (fun i => decide (0 < i)) 0 0
        (restoreWorker (fun v => if v = "y" then some (0 : Nat) else none)
          (List.replicate 20001 "y")).ops = (↑[(0 : Nat)] : Multiset Nat) := by
  have h2 : restoreWorker (fun v => if v = "y" then some (0 : Nat) else none)
      (List.replicate 20001 "y")
      = ⟨[List.replicate 20000 0, [0]], 20001⟩ := by
    rw [restoreWorker_eq_copy,
      parsedDocs_replicate _ "y" 0 (by decide) (by simp), copyWorker_20001]
  rw [h2]
  refine ⟨?_, rfl, ?_⟩
  · simp only [List.map_cons, List.map_nil, List.length_replicate,
      List.length_cons, List.length_nil]
  · show applyOpsFrom (fun i => decide (0 < i)) 0 0
      ([List.replicate 20000 (0 : Nat), [0]].map DbOp.insertMany) = _
    rw [List.map_cons, List.map_cons, List.map_nil]
    show applyOpsFrom (fun i => decide (0 < i)) 1
      (if decide (0 < 0) = true then _ else 0) [DbOp.insertMany [0]] = _
    rw [if_neg (by decide)]
    show applyOpsFrom (fun i => decide (0 < i)) 2
      (if decide (0 < 1) = true then applyOp 0 (DbOp.insertMany [0]) else 0) [] = _
    rw [if_pos (by decide)]
    show applyOp 0 (DbOp.insertMany [(0 : Nat)]) = _
    decide

/-- Claim C6, amended to what the code does: a failed mid-stream
bulk-insert is logged and the worker continues — the batches it issues are
a function of its input alone, every successfully parsed document is sent
in exactly one bulk-insert (a failed batch is never retried), the count
covers all parsed documents, and sibling collection workers are
independent (each worker's outcome is determined by its own file only). -/
theorem C6_amended_failure_logged_not_fatal {Doc : Type}
    (deser : String → Option Doc) (lines : List String)
    (files : List (String × List String)) (c : String) (ls : List String)
    (hmem : (c, ls) ∈ files) :
    (restoreWorker deser lines).inserts.flatten = parsedDocs deser lines
    ∧ (restoreWorker deser lines).count = (parsedDocs deser lines).length
    ∧ (c, restoreWorker deser ls) ∈ restoreAll deser files := by
  refine ⟨(restoreWorker_spec deser lines).1,
    (restoreWorker_spec deser lines).2, ?_⟩
  unfold restoreAll
  exact List.mem_map.mpr ⟨(c, ls), hmem, rfl⟩

/-- Witness for the amended C6 at a concrete file list. -/
theorem C6_amended_witness :
    (restoreWorker (fun v => if v = "a" then some (5 : Nat) else none)
      ["a", "bad", ""]).inserts.flatten = [5]
    ∧ ("users", restoreWorker
        (fun v => if v = "a" then some (5 : Nat) else none) ["a"])
      ∈ restoreAll (fun v => if v = "a" then some (5 : Nat) else none)
        [("users", ["a"])] := by
  have h := C6_amended_failure_logged_not_fatal
    (fun v => if v = "a" then some (5 : Nat) else none) ["a", "bad", ""]
    [("users", ["a"])] "users" ["a"] (by simp)
  refine ⟨?_, h.2.2⟩
  rw [h.1]
  decide

/-- Claim C1: exporting every collection of a source database and
importing the snapshot into an initially empty target restores, for each
collection, the same multiset of documents, regardless of the order of the
lines in the per-collection files.  The codec hypothesis states that every
source document serializes to a non-blank line that parses back to itself
(comparison after JSON normalization); `linesOnDisk` is any per-collection
reordering of the lines the export loop wrote. -/
theorem C1_round_trip {Doc : Type} (collections : List String)
    (cursorDocs : String → List Doc) (ser : Doc → String)
    (deser : String → Option Doc) (linesOnDisk : String → List String)
    (hcodec : ∀ C ∈ collections, ∀ d ∈ cursorDocs C,
        ser d ≠ "" ∧ deser (ser d) = some d)
    (hdisk : ∀ C ∈ collections, (linesOnDisk C).Perm
        ((backupScan (fun d => some (ser d)) (fun _ => true) (cursorDocs C)).1)) :
    ∀ C ∈ collections,
      applyOpsFrom (fun _ => true) 0 (0 : Multiset Doc)
        ((restoreWorker deser (linesOnDisk C)).ops) = ↑(cursorDocs C) := by
  intro C hC
  show applyOpsFrom (fun _ => true) 0 0
    ((restoreWorker deser (linesOnDisk C)).inserts.map DbOp.insertMany) = _
  rw [applyOpsFrom_inserts_allOk (fun _ => true) (fun j => rfl)
    (restoreWorker deser (linesOnDisk C)).inserts 0 0]
  rw [zero_add, (restoreWorker_spec deser (linesOnDisk C)).1]
  rw [Multiset.coe_eq_coe]
  have hlines : (backupScan (fun d => some (ser d)) (fun _ => true)
      (cursorDocs C)).1 = (cursorDocs C).map ser := by
    rw [backupScan_lines]
    exact congrFun (List.filterMap_eq_map ser) (cursorDocs C)
  have hperm1 : (parsedDocs deser (linesOnDisk C)).Perm
      (parsedDocs deser ((cursorDocs C).map ser)) := by
    apply List.Perm.filterMap
    rw [← hlines]
    exact hdisk C hC
  have heq : parsedDocs deser ((cursorDocs C).map ser) = cursorDocs C :=
    parsedDocs_map_ser ser deser (cursorDocs C) (hcodec C hC)
  rw [heq] at hperm1
  exact hperm1

/-- Witness for C1 with a two-document collection imported from a
reordered file. -/
theorem C1_round_trip_witness :
    applyOpsFrom (fun _ => true) 0 (0 : Multiset Nat)
      ((restoreWorker
        (fun v => if v = "a" then some 1 else if v = "b" then some 2 else none)
        ["b", "a"]).ops) = ↑[1, 2] := by
  have h := C1_round_trip ["X"] (fun _ => [1, 2])
    (fun n => if n = 1 then "a" else "b")
    (fun v => if v = "a" then some 1 else if v = "b" then some 2 else none)
    (fun _ => ["b", "a"])
    (by
      intro C _ d hd
      fin_cases hd
      · exact ⟨by decide, by decide⟩
      · exact ⟨by decide, by decide⟩)
    (by
      intro C _
      show List.Perm ["b", "a"]
        ((backupScan (fun n : Nat => some (if n = 1 then "a" else "b"))
          (fun _ => true) [1, 2]).1)
      decide)
    "X" (by simp)
  exact h

/-- Claim C7: the overall Export call returns success whenever the dated
folder was created and the collection names were listed, whatever the
per-collection worker outcomes; a worker itself succeeds (with its scan
result) whenever its file creation and source query succeed, whatever the
per-document serialization and write outcomes. -/
theorem C7_export_reports_success {Doc : Type} (createDirOk listOk : Bool)
    (cols : List String)
    (worker : String → Except BackupWorkerErr (List String × Nat))
    (fileOk queryOk : Bool) (serialize : Doc → Option String)
    (writeOk : Nat → Bool) (docs : List Doc)
    (h1 : createDirOk = true) (h2 : listOk = true)
    (h3 : fileOk = true) (h4 : queryOk = true) :
    backup createDirOk listOk cols worker
      = .ok (cols.map (fun c => (c, worker c)))
    ∧ backupWorker fileOk queryOk serialize writeOk docs
      = .ok (backupScan serialize writeOk docs) := by
  subst h1
  subst h2
  subst h3
  subst h4
  exact ⟨rfl, rfl⟩

/-- Witness for C7: every worker fails, the call still returns success. -/
theorem C7_export_reports_success_witness :
    backup true true ["Alerts", "Builds"]
      (fun _ => .error BackupWorkerErr.query)
      = .ok [("Alerts", .error BackupWorkerErr.query),
             ("Builds", .error BackupWorkerErr.query)]
    ∧ backupWorker true true (fun _ : Nat => (none : Option String))
        (fun _ => true) [1, 2, 3] = .ok ([], 3) := by
  have h := @C7_export_reports_success Nat true true ["Alerts", "Builds"]
    (fun _ => .error BackupWorkerErr.query) true true (fun _ => none)
    (fun _ => true) [1, 2, 3] rfl rfl rfl rfl
  exact ⟨h.1, h.2⟩

/-- Claim C4: the collection named exactly `Stats` is always written to the
single root-level path `Stats.gz`, independent of the run's timestamp and
never inside the dated subfolder; an ordinary collection gets a fresh
per-run path containing the timestamp; and a second write to the Stats
path fully replaces the previous content (the run removes/overwrites the
existing file). -/
theorem C4_stats_exception (folder : List String) (ts1 ts2 c : String)
    (fs : List String → Option (List String)) (s1 s2 : List String)
    (hc : c ≠ "Stats") (hts : ts1 ≠ ts2) :
    backupFilePath folder ts1 "Stats" = folder ++ ["Stats.gz"]
    ∧ backupFilePath folder ts1 "Stats" = backupFilePath folder ts2 "Stats"
    ∧ backupFilePath folder ts1 c = folder ++ [ts1, c ++ ".gz"]
    ∧ backupFilePath folder ts1 c ≠ backupFilePath folder ts2 c
    ∧ writeFile (writeFile fs (backupFilePath folder ts1 "Stats") s1)
        (backupFilePath folder ts2 "Stats") s2 (folder ++ ["Stats.gz"])
      = some s2 := by
  have e : ∀ ts : String, backupFilePath folder ts "Stats"
      = folder ++ ["Stats.gz"] := by
    intro ts
    unfold backupFilePath
    rw [if_pos rfl]
  have eo : ∀ ts : String, backupFilePath folder ts c
      = folder ++ [ts, c ++ ".gz"] := by
    intro ts
    unfold backupFilePath
    rw [if_neg hc]
  refine ⟨e ts1, (e ts1).trans (e ts2).symm, eo ts1, ?_, ?_⟩
  · rw [eo ts1, eo ts2]
    intro hEq
    rw [List.append_right_inj] at hEq
    exact hts (List.cons_eq_cons.mp hEq).1
  · rw [e ts2]
    unfold writeFile
    rw [if_pos rfl]

/-- Witness for C4 at concrete folder, timestamps and collection. -/
theorem C4_stats_exception_witness :
    backupFilePath ["backups"] "2025-01-01_00-00-00" "Stats"
      = ["backups", "Stats.gz"]
    ∧ backupFilePath ["backups"] "2025-01-01_00-00-00" "Deployments"
      ≠ backupFilePath ["backups"] "2025-02-01_00-00-00" "Deployments"
    ∧ writeFile (writeFile (fun _ => none)
        (backupFilePath ["backups"] "2025-01-01_00-00-00" "Stats") ["one"])
        (backupFilePath ["backups"] "2025-02-01_00-00-00" "Stats") ["two"]
        (["backups"] ++ ["Stats.gz"]) = some ["two"] := by
  have h := C4_stats_exception ["backups"] "2025-01-01_00-00-00"
    "2025-02-01_00-00-00" "Deployments" (fun _ => none) ["one"] ["two"]
    (by decide) (by decide)
  exact ⟨h.1, h.2.2.2.1, h.2.2.2.2⟩

/-- Claim C2 as stated is false in its NotFound part: when the backups
folder holds no subdirectory, `latest_restore_folder` does not return a
NotFound error — restore.rs line 134 starts from `PathBuf::new()` and line
157 returns it wrapped in `Ok`, so with only the `Stats.gz` file present
the function succeeds with the empty path (the missing folder only
surfaces later, when `get_restore_files` fails to read that path). -/
theorem C2_counterexample :
    latest_restore_folder true ["backups"] [⟨"Stats.gz", false⟩]
      = .ok [] := rfl

/-- Claim C2, amended: `latest_restore_folder` succeeds (when `read_dir`
does) with the lexicographically greatest immediate-subdirectory path —
the result never compares below any directory entry and is one of them —
and returns the empty path, not an error, when there is no subdirectory;
for the three dated folders of the claim it selects
`2025-02-01_00-00-00`. -/
theorem C2_amended_latest_folder (folder : List String)
    (entries : List DirEntry) (readDirOk : Bool) (h : readDirOk = true) :
    latest_restore_folder readDirOk folder entries
      = .ok (latestFold folder entries)
    ∧ (∀ e ∈ entries, e.isDir = true →
        pathLt (latestFold folder entries) (folder ++ [e.name]) = false)
    ∧ (latestFold folder entries = []
        ∨ ∃ e, e ∈ entries ∧ e.isDir = true
            ∧ latestFold folder entries = folder ++ [e.name])
    ∧ ((∀ e ∈ entries, e.isDir = false) → latestFold folder entries = [])
    ∧ latestFold ["backups"]
        [⟨"2024-12-31_23-59-59", true⟩, ⟨"2025-01-01_00-00-00", true⟩,
         ⟨"2025-02-01_00-00-00", true⟩]
        = ["backups", "2025-02-01_00-00-00"] := by
  subst h
  obtain ⟨g1, g2, g3⟩ := latestFold_spec folder entries
  exact ⟨rfl, g1, g2, g3, by decide⟩

/-- Witness for the amended C2 on the claim's three dated folders. -/
theorem C2_amended_latest_folder_witness :
    latest_restore_folder true ["backups"]
      [⟨"2024-12-31_23-59-59", true⟩, ⟨"2025-01-01_00-00-00", true⟩,
       ⟨"2025-02-01_00-00-00", true⟩]
      = .ok ["backups", "2025-02-01_00-00-00"] := by
  have h := C2_amended_latest_folder ["backups"]
    [⟨"2024-12-31_23-59-59", true⟩, ⟨"2025-01-01_00-00-00", true⟩,
     ⟨"2025-02-01_00-00-00", true⟩] true rfl
  rw [h.1, h.2.2.2.2]

end Komodo
